import Mathlib

/-!
Verification of `src/spheroids/cpp/converter.hpp` (the Spheroids array
conversion and Moebius-transform layer).

The C++ functions are embedded shallowly:

* a NumPy-style buffer (`py::array_t<double>` with its `buffer_info`) becomes
  `PyArray`: a shape list plus flat data in row-major order;
* `arma::vec` becomes `ArmaVec`: a flat list of entries;
* `arma::mat` becomes `ArmaMat`: row and column counts plus flat data in
  column-major order, exactly Armadillo's storage convention, so
  `M(i,j) = data[j * n_rows + i]`;
* IEEE-754 doubles are modelled as exact rationals `ℚ`; division is the total
  field division of `ℚ`;
* the `throw std::runtime_error` branch of `pyarray_to_arma_vec` becomes the
  `Except.error` branch of a Lean `Except`.
-/

/-- External buffer: an explicit shape together with the flat data, laid out
in row-major order (the NumPy/C default used by `py::array_t<double>`). -/
structure PyArray where
  shape : List Nat
  data : List ℚ
deriving DecidableEq

/-- Number of dimensions of the buffer (`buf.ndim`). -/
def PyArray.ndim (a : PyArray) : Nat := a.shape.length

/-- The buffer actually holds one double per index tuple of its shape. -/
def PyArray.wf (a : PyArray) : Prop := a.data.length = a.shape.prod

/-- Element at flat index `k` of a rank-1 buffer. -/
def PyArray.get1 (a : PyArray) (k : Nat) : ℚ := a.data.getD k 0

/-- Element at position `(i, j)` of a rank-2 row-major buffer: the row stride
is the second shape entry. -/
def PyArray.get2 (a : PyArray) (i j : Nat) : ℚ :=
  a.data.getD (i * a.shape.getD 1 0 + j) 0

/-- `arma::vec`: a contiguous sequence of entries (`n_elem = data.length`). -/
structure ArmaVec where
  data : List ℚ
deriving DecidableEq

/-- `v.n_elem`. -/
def ArmaVec.n_elem (v : ArmaVec) : Nat := v.data.length

/-- `v(j)`. -/
def ArmaVec.get (v : ArmaVec) (j : Nat) : ℚ := v.data.getD j 0

/-- `arma::mat`: dense matrix stored in column-major order, Armadillo's
convention: the entry at row `i`, column `j` sits at flat index
`j * n_rows + i`. -/
structure ArmaMat where
  n_rows : Nat
  n_cols : Nat
  data : List ℚ
deriving DecidableEq

/-- `M(i,j)`, reading the column-major storage. -/
def ArmaMat.get (M : ArmaMat) (i j : Nat) : ℚ := M.data.getD (j * M.n_rows + i) 0

/-- The storage holds exactly `n_rows * n_cols` entries. -/
def ArmaMat.wf (M : ArmaMat) : Prop := M.data.length = M.n_rows * M.n_cols

/-- Column-major flat storage of the `r × c` matrix with entries `f i j`:
flat index `k` holds the entry at row `k % r`, column `k / r`. -/
def mkColMajor (r c : Nat) (f : Nat → Nat → ℚ) : List ℚ :=
  (List.range (r * c)).map (fun k => f (k % r) (k / r))

/-- The `r × c` matrix with entries `f i j`, materialized column-major. -/
def mkMat (r c : Nat) (f : Nat → Nat → ℚ) : ArmaMat :=
  ⟨r, c, mkColMajor r c f⟩

/-- `M.t()`: the materialized transpose (Armadillo evaluates `M.t()` into a
fresh column-major matrix when it is returned as an `arma::mat`). -/
def ArmaMat.t (M : ArmaMat) : ArmaMat :=
  mkMat M.n_cols M.n_rows (fun i j => M.get j i)

/-- `pyarray_to_arma_vec` (converter.hpp lines 12-24): rank 1 gives a view of
the buffer's `shape[0]` doubles; rank 2 gives a view of all
`shape[0] * shape[1]` doubles in buffer order; any other rank throws
`std::runtime_error("Expected a 1D or 2D vector.")`. -/
def pyarray_to_arma_vec (arr : PyArray) : Except String ArmaVec :=
  if arr.ndim = 1 then
    Except.ok ⟨arr.data.take (arr.shape.getD 0 0)⟩
  else if arr.ndim = 2 then
    Except.ok ⟨arr.data.take (arr.shape.getD 0 0 * arr.shape.getD 1 0)⟩
  else
    Except.error ("Expected a 1D or 2D vector.")

/-- `pyarray_to_arma_mat` (converter.hpp lines 27-32): reinterpret the buffer
as a `shape[1] × shape[0]` column-major matrix (zero-copy), then return its
materialized transpose. -/
def pyarray_to_arma_mat (arr : PyArray) : ArmaMat :=
  ArmaMat.t ⟨arr.shape.getD 1 0, arr.shape.getD 0 0,
    arr.data.take (arr.shape.getD 1 0 * arr.shape.getD 0 0)⟩

/-- `arma_vec_to_pyarray` (converter.hpp lines 36-41): allocate a fresh 1-D
array of length `n_elem` and `memcpy` the `n_elem` doubles into it. -/
def arma_vec_to_pyarray (v : ArmaVec) : PyArray :=
  ⟨[v.n_elem], v.data⟩

/-- `arma_mat_to_pyarray` (converter.hpp lines 44-49): allocate a fresh 2-D
row-major array of shape `(n_rows, n_cols)` and `memcpy` the matrix's
`n_elem = n_rows * n_cols` doubles straight from `M.memptr()` — i.e. the raw
column-major storage — into the row-major buffer, with no reordering. -/
def arma_mat_to_pyarray (M : ArmaMat) : PyArray :=
  ⟨[M.n_rows, M.n_cols], M.data.take (M.n_rows * M.n_cols)⟩

/-- Row `i` of the Armadillo product `X * mu`: the dot product of row `i` of
`X` with `mu`, summed over the `n_cols` columns. -/
def rowDot (X : ArmaMat) (mu : ArmaVec) (i : Nat) : ℚ :=
  ((List.range X.n_cols).map (fun j => X.get i j * mu.get j)).sum

/-- `Moebius_S` (converter.hpp lines 51-58), statement by statement:
`Y = (1-rho*rho)*(X.each_row() + rho*mu.t())` is entrywise
`(1-ρ²)·(X(i,j) + ρ·μ(j))`; `Y = Y.each_col()/(1+2*rho*X*mu+rho*rho)` divides
row `i` by the scalar `1 + 2ρ·(x_i·μ) + ρ²`; `Y = Y.each_row() + rho*mu.t()`
adds `ρ·μ(j)` to every entry of column `j`. No dimension check is performed
anywhere. -/
def Moebius_S (X : ArmaMat) (mu : ArmaVec) (rho : ℚ) : ArmaMat :=
  let Y1 := mkMat X.n_rows X.n_cols
    (fun i j => (1 - rho * rho) * (X.get i j + rho * mu.get j))
  let Y2 := mkMat X.n_rows X.n_cols
    (fun i j => Y1.get i j / (1 + 2 * rho * rowDot X mu i + rho * rho))
  mkMat X.n_rows X.n_cols (fun i j => Y2.get i j + rho * mu.get j)

/-! Helper lemmas about the list-level storage model. -/

lemma rangeMap_getD (m k : Nat) (g : Nat → ℚ) (hk : k < m) :
    ((List.range m).map g).getD k 0 = g k := by
  rw [List.getD_eq_getElem?_getD, List.getElem?_map, List.getElem?_range hk]
  rfl

lemma take_getD (l : List ℚ) (m k : Nat) (hk : k < m) :
    (l.take m).getD k 0 = l.getD k 0 := by
  rw [List.getD_eq_getElem?_getD, List.getD_eq_getElem?_getD,
    List.getElem?_take_of_lt hk]

lemma mkColMajor_length (r c : Nat) (f : Nat → Nat → ℚ) :
    (mkColMajor r c f).length = r * c := by
  simp [mkColMajor]

lemma flat_lt (r c i j : Nat) (hi : i < r) (hj : j < c) : j * r + i < r * c :=
  calc j * r + i < j * r + r := by omega
    _ = (j + 1) * r := by ring
    _ ≤ c * r := Nat.mul_le_mul_right _ hj
    _ = r * c := Nat.mul_comm _ _

lemma mkColMajor_getD (r c : Nat) (f : Nat → Nat → ℚ) (i j : Nat)
    (hi : i < r) (hj : j < c) :
    (mkColMajor r c f).getD (j * r + i) 0 = f i j := by
  rw [mkColMajor, rangeMap_getD _ _ _ (flat_lt r c i j hi hj)]
  have hr : 0 < r := Nat.lt_of_le_of_lt (Nat.zero_le i) hi
  have h1 : (j * r + i) % r = i := by
    rw [Nat.add_comm, Nat.add_mul_mod_self_right, Nat.mod_eq_of_lt hi]
  have h2 : (j * r + i) / r = j := by
    rw [Nat.add_comm, Nat.add_mul_div_right _ _ hr, Nat.div_eq_of_lt hi,
      Nat.zero_add]
  rw [h1, h2]

lemma mkMat_get (r c : Nat) (f : Nat → Nat → ℚ) (i j : Nat)
    (hi : i < r) (hj : j < c) :
    (mkMat r c f).get i j = f i j :=
  mkColMajor_getD r c f i j hi hj

/-- A matrix rebuilt entrywise from its own entries is itself. -/
lemma mkMat_eq_self (X : ArmaMat) (hw : X.wf) (f : Nat → Nat → ℚ)
    (hf : ∀ i j, i < X.n_rows → j < X.n_cols → f i j = X.get i j) :
    mkMat X.n_rows X.n_cols f = X := by
  obtain ⟨r, c, data⟩ := X
  have hlen : data.length = r * c := hw
  simp only [mkMat, ArmaMat.mk.injEq, true_and]
  apply List.ext_getElem (by simp [mkColMajor, hlen])
  intro k hk1 hk2
  have hkrc : k < r * c := by simpa [mkColMajor] using hk1
  have hr : 0 < r := by
    rcases Nat.eq_zero_or_pos r with h | h
    · rw [h, Nat.zero_mul] at hkrc
      exact absurd hkrc (Nat.not_lt_zero k)
    · exact h
  have hmod : k % r < r := Nat.mod_lt _ hr
  have hdiv : k / r < c := by
    rw [Nat.div_lt_iff_lt_mul hr, Nat.mul_comm]
    exact hkrc
  have hstep : (mkColMajor r c f)[k] = f (k % r) (k / r) := by
    simp [mkColMajor]
  rw [hstep, hf _ _ hmod hdiv]
  have hidx : k / r * r + k % r = k := by
    rw [Nat.mul_comm]
    exact Nat.div_add_mod k r
  show ArmaMat.get ⟨r, c, data⟩ (k % r) (k / r) = data[k]
  rw [ArmaMat.get, hidx, List.getD_eq_getElem?_getD, List.getElem?_eq_getElem hk2]
  rfl

/-! Theorems settling the claims. -/

/-- Claim C3: for a rank-2 row-major external array of shape `(n, d)`,
`pyarray_to_arma_mat` returns an `n × d` matrix whose entry at `(i, j)`
equals the array's element at `(i, j)`. -/
theorem to_matrix_correct (a : PyArray) (n d i j : Nat)
    (hs : a.shape = [n, d]) (hw : a.wf) (hi : i < n) (hj : j < d) :
    (pyarray_to_arma_mat a).n_rows = n ∧ (pyarray_to_arma_mat a).n_cols = d ∧
      (pyarray_to_arma_mat a).get i j = a.get2 i j := by
  have h1 : a.shape.getD 1 0 = d := by rw [hs]; rfl
  have h0 : a.shape.getD 0 0 = n := by rw [hs]; rfl
  rw [pyarray_to_arma_mat, h0, h1, ArmaMat.t]
  refine ⟨rfl, rfl, ?_⟩
  rw [mkMat_get _ _ _ i j hi hj]
  show (a.data.take (d * n)).getD (i * d + j) 0 = a.get2 i j
  rw [take_getD _ _ _ (by
    calc i * d + j < i * d + d := by omega
      _ = (i + 1) * d := by ring
      _ ≤ n * d := Nat.mul_le_mul_right _ hi
      _ = d * n := Nat.mul_comm _ _)]
  rw [PyArray.get2, h1]

/-- Witness for C3 at the concrete 2 × 3 array `[[1,2,3],[4,5,6]]`. -/
theorem to_matrix_correct_witness :
    (pyarray_to_arma_mat ⟨[2, 3], [1, 2, 3, 4, 5, 6]⟩).get 1 2 =
      PyArray.get2 ⟨[2, 3], [1, 2, 3, 4, 5, 6]⟩ 1 2 :=
  (to_matrix_correct ⟨[2, 3], [1, 2, 3, 4, 5, 6]⟩ 2 3 1 2 rfl rfl
    (by decide) (by decide)).2.2

/-- Claim C6: `pyarray_to_arma_vec` succeeds exactly on arrays of rank 1 or
rank 2, and on any other rank fails with the shape error, returning nothing
else (so rank > 2 input is never truncated or reshaped). -/
theorem to_vector_rank_exact (a : PyArray) :
    ((a.ndim = 1 ∨ a.ndim = 2) → ∃ v, pyarray_to_arma_vec a = Except.ok v) ∧
    (¬(a.ndim = 1 ∨ a.ndim = 2) →
      pyarray_to_arma_vec a = Except.error ("Expected a 1D or 2D vector.")) := by
  constructor
  · intro h
    rw [pyarray_to_arma_vec]
    by_cases h1 : a.ndim = 1
    · rw [if_pos h1]
      exact ⟨_, rfl⟩
    · have h2 : a.ndim = 2 := h.resolve_left h1
      rw [if_neg h1, if_pos h2]
      exact ⟨_, rfl⟩
  · intro h
    push_neg at h
    rw [pyarray_to_arma_vec, if_neg h.1, if_neg h.2]

/-- Witness for C6: a rank-3 array is rejected with the shape error. -/
theorem to_vector_rank_exact_witness :
    pyarray_to_arma_vec ⟨[2, 1, 2], [1, 2, 3, 4]⟩ =
      Except.error ("Expected a 1D or 2D vector.") :=
  (to_vector_rank_exact ⟨[2, 1, 2], [1, 2, 3, 4]⟩).2 (by decide)

/-- Claim C7: for a rank-1 array, `arma_vec_to_pyarray ∘ pyarray_to_arma_vec`
gives back an array equal to the input element-for-element (indeed equal as a
shape-plus-data value). -/
theorem vec_roundtrip (a : PyArray) (n : Nat) (hs : a.shape = [n]) (hw : a.wf) :
    ∃ v, pyarray_to_arma_vec a = Except.ok v ∧ arma_vec_to_pyarray v = a := by
  obtain ⟨sh, dt⟩ := a
  rw [PyArray.wf] at hw
  simp only at hs
  subst hs
  have hlen : dt.length = n := by simpa using hw
  refine ⟨⟨dt⟩, ?_, ?_⟩
  · rw [pyarray_to_arma_vec, if_pos (by rfl)]
    show Except.ok (ArmaVec.mk (dt.take n)) = Except.ok (ArmaVec.mk dt)
    rw [List.take_of_length_le (le_of_eq hlen)]
  · rw [arma_vec_to_pyarray]
    show (⟨[dt.length], dt⟩ : PyArray) = _
    rw [hlen]

/-- Witness for C7 at the concrete array `[5, 6, 7]`. -/
theorem vec_roundtrip_witness :
    ∃ v, pyarray_to_arma_vec ⟨[3], [5, 6, 7]⟩ = Except.ok v ∧
      arma_vec_to_pyarray v = ⟨[3], [5, 6, 7]⟩ :=
  vec_roundtrip ⟨[3], [5, 6, 7]⟩ 3 rfl rfl

/-- Claim C10: routing a contiguous row-major `(r, c)` array through the
vector path yields its row-major flattening: a 1-D array of length `r * c`
whose element at flat index `k` is the input's element at
`(k / c, k % c)`. -/
theorem vec_path_flattens (a : PyArray) (r c : Nat)
    (hs : a.shape = [r, c]) (hw : a.wf) :
    ∃ v, pyarray_to_arma_vec a = Except.ok v ∧
      (arma_vec_to_pyarray v).shape = [r * c] ∧
      ∀ k, k < r * c →
        (arma_vec_to_pyarray v).get1 k = a.get2 (k / c) (k % c) := by
  obtain ⟨sh, dt⟩ := a
  rw [PyArray.wf] at hw
  simp only at hs
  subst hs
  have hlen : dt.length = r * c := by simpa using hw
  refine ⟨⟨dt⟩, ?_, ?_, ?_⟩
  · rw [pyarray_to_arma_vec, if_neg (by simp [PyArray.ndim]), if_pos (by rfl)]
    show Except.ok (ArmaVec.mk (dt.take (r * c))) = Except.ok (ArmaVec.mk dt)
    rw [List.take_of_length_le (le_of_eq hlen)]
  · show [dt.length] = [r * c]
    rw [hlen]
  · intro k hk
    have hidx : k / c * c + k % c = k := by
      rw [Nat.mul_comm]
      exact Nat.div_add_mod k c
    show dt.getD k 0 = dt.getD (k / c * c + k % c) 0
    rw [hidx]

/-- Witness for C10 at the concrete 2 × 3 array `[[1,2,3],[4,5,6]]`. -/
theorem vec_path_flattens_witness :
    ∃ v, pyarray_to_arma_vec ⟨[2, 3], [1, 2, 3, 4, 5, 6]⟩ = Except.ok v ∧
      (arma_vec_to_pyarray v).shape = [2 * 3] ∧
      ∀ k, k < 2 * 3 →
        (arma_vec_to_pyarray v).get1 k =
          PyArray.get2 ⟨[2, 3], [1, 2, 3, 4, 5, 6]⟩ (k / 3) (k % 3) :=
  vec_path_flattens ⟨[2, 3], [1, 2, 3, 4, 5, 6]⟩ 2 3 rfl rfl

/-- Claim C1 fails on the code: the matrix round-trip transposes. For the
row-major array `[[1,2],[3,4]]`, `pyarray_to_arma_mat` builds the correct
matrix, but `arma_mat_to_pyarray` copies its column-major storage straight
into a row-major buffer, so the round-trip returns `[[1,3],[2,4]]`, not the
input. -/
theorem mat_roundtrip_transposes :
    arma_mat_to_pyarray (pyarray_to_arma_mat ⟨[2, 2], [1, 2, 3, 4]⟩) =
      ⟨[2, 2], [1, 3, 2, 4]⟩ ∧
    (⟨[2, 2], [1, 3, 2, 4]⟩ : PyArray) ≠ ⟨[2, 2], [1, 2, 3, 4]⟩ :=
  ⟨rfl, by decide⟩

/-- Claim C2 fails on the code: `arma_mat_to_pyarray` copies the column-major
bytes without reordering. The 2 × 2 matrix with column-major data
`[1,2,3,4]` has `M(0,1) = 3`, but the produced external array holds `2` at
position `(0,1)`. -/
theorem mat_to_array_misorders :
    (arma_mat_to_pyarray ⟨2, 2, [1, 2, 3, 4]⟩).shape = [2, 2] ∧
    PyArray.get2 (arma_mat_to_pyarray ⟨2, 2, [1, 2, 3, 4]⟩) 0 1 = 2 ∧
    ArmaMat.get ⟨2, 2, [1, 2, 3, 4]⟩ 0 1 = 3 ∧
    (2 : ℚ) ≠ 3 :=
  ⟨rfl, rfl, rfl, by decide⟩

/-- Claim C8 fails on the code: `Moebius_S` contains no dimension check at
all. With a 2 × 2 matrix and a length-3 `mu` it still completes and returns
a 2 × 2 matrix instead of raising a dimension-mismatch error. -/
theorem moebius_no_dimension_check :
    ArmaVec.n_elem ⟨[1, 0, 0]⟩ ≠ ArmaMat.n_cols ⟨2, 2, [1, 2, 3, 4]⟩ ∧
    (Moebius_S ⟨2, 2, [1, 2, 3, 4]⟩ ⟨[1, 0, 0]⟩ (1 / 2)).n_rows = 2 ∧
    (Moebius_S ⟨2, 2, [1, 2, 3, 4]⟩ ⟨[1, 0, 0]⟩ (1 / 2)).n_cols = 2 ∧
    (Moebius_S ⟨2, 2, [1, 2, 3, 4]⟩ ⟨[1, 0, 0]⟩ (1 / 2)).data.length = 4 :=
  ⟨by decide, rfl, rfl, rfl⟩

/-- Claim C4: for `i < n` and `j < d`, entry `(i, j)` of
`Moebius_S X mu rho` is component `j` of
`rho*mu + (1 - rho^2) * (x_i + rho*mu) / (1 + 2*rho*(x_i · mu) + rho^2)`,
and the output shape is the input shape. Arithmetic is modelled exactly over
`ℚ`; the code's expression tree matches the formula term-for-term up to
commuting the final addition. -/
theorem moebius_formula (X : ArmaMat) (mu : ArmaVec) (rho : ℚ) (i j : Nat)
    (hmu : mu.n_elem = X.n_cols) (hi : i < X.n_rows) (hj : j < X.n_cols) :
    (Moebius_S X mu rho).n_rows = X.n_rows ∧
    (Moebius_S X mu rho).n_cols = X.n_cols ∧
    (Moebius_S X mu rho).get i j =
      rho * mu.get j +
        (1 - rho ^ 2) * (X.get i j + rho * mu.get j) /
          (1 + 2 * rho * rowDot X mu i + rho ^ 2) := by
  refine ⟨rfl, rfl, ?_⟩
  simp only [Moebius_S]
  rw [mkMat_get _ _ _ _ _ hi hj, mkMat_get _ _ _ _ _ hi hj,
    mkMat_get _ _ _ _ _ hi hj]
  ring

/-- Witness for C4: the identity matrix, `mu = [1,0]`, `rho = 1/2`, at entry
`(0, 0)`. -/
theorem moebius_formula_witness :
    (Moebius_S ⟨2, 2, [1, 0, 0, 1]⟩ ⟨[1, 0]⟩ (1 / 2)).n_rows = 2 ∧
    (Moebius_S ⟨2, 2, [1, 0, 0, 1]⟩ ⟨[1, 0]⟩ (1 / 2)).n_cols = 2 ∧
    (Moebius_S ⟨2, 2, [1, 0, 0, 1]⟩ ⟨[1, 0]⟩ (1 / 2)).get 0 0 =
      (1 / 2) * ArmaVec.get ⟨[1, 0]⟩ 0 +
        (1 - (1 / 2) ^ 2) *
            (ArmaMat.get ⟨2, 2, [1, 0, 0, 1]⟩ 0 0 + (1 / 2) * ArmaVec.get ⟨[1, 0]⟩ 0) /
          (1 + 2 * (1 / 2) * rowDot ⟨2, 2, [1, 0, 0, 1]⟩ ⟨[1, 0]⟩ 0 + (1 / 2) ^ 2) :=
  moebius_formula ⟨2, 2, [1, 0, 0, 1]⟩ ⟨[1, 0]⟩ (1 / 2) 0 0 rfl
    (by decide) (by decide)

/-- Claim C5: at `rho = 0` the transform is the identity: every entry
reduces to `(1 - 0)·(x + 0) / (1 + 0 + 0) + 0 = x`, and the value equality
is exact, so the whole matrix is returned unchanged. -/
theorem moebius_identity_at_zero (X : ArmaMat) (mu : ArmaVec)
    (hmu : mu.n_elem = X.n_cols) (hw : X.wf) :
    Moebius_S X mu 0 = X := by
  simp only [Moebius_S]
  apply mkMat_eq_self X hw
  intro i j hi hj
  rw [mkMat_get _ _ _ _ _ hi hj, mkMat_get _ _ _ _ _ hi hj]
  ring

/-- Witness for C5 at a concrete 2 × 2 matrix and `mu = [1, 0]`. -/
theorem moebius_identity_at_zero_witness :
    Moebius_S ⟨2, 2, [1, 2, 3, 4]⟩ ⟨[1, 0]⟩ 0 = ⟨2, 2, [1, 2, 3, 4]⟩ :=
  moebius_identity_at_zero ⟨2, 2, [1, 2, 3, 4]⟩ ⟨[1, 0]⟩ rfl rfl

/-- Claim C9: at `rho = -1` the transform still completes and returns a
matrix of the input's shape, with a numeric value in every entry, even where
the per-row denominator is zero; the arithmetic has no error path. In this
exact-arithmetic model the scale factor `1 - (-1)² = 0` makes every entry
`-mu(j)` (IEEE would put NaN where the denominator is zero; either way a
value, never an exception). -/
theorem moebius_rho_neg_one_total (X : ArmaMat) (mu : ArmaVec) (i j : Nat)
    (hmu : mu.n_elem = X.n_cols) (hi : i < X.n_rows) (hj : j < X.n_cols) :
    (Moebius_S X mu (-1)).n_rows = X.n_rows ∧
    (Moebius_S X mu (-1)).n_cols = X.n_cols ∧
    (Moebius_S X mu (-1)).get i j = -(mu.get j) := by
  refine ⟨rfl, rfl, ?_⟩
  simp only [Moebius_S]
  rw [mkMat_get _ _ _ _ _ hi hj, mkMat_get _ _ _ _ _ hi hj,
    mkMat_get _ _ _ _ _ hi hj]
  ring

/-- Witness for C9 at an input whose denominator is exactly zero:
`X = [[1]]`, `mu = [1]` gives `1 + 2·(-1)·1 + 1 = 0`, and the transform
still returns the 1 × 1 matrix with entry `-1`. -/
theorem moebius_rho_neg_one_total_witness :
    (Moebius_S ⟨1, 1, [1]⟩ ⟨[1]⟩ (-1)).n_rows = 1 ∧
    (Moebius_S ⟨1, 1, [1]⟩ ⟨[1]⟩ (-1)).n_cols = 1 ∧
    (Moebius_S ⟨1, 1, [1]⟩ ⟨[1]⟩ (-1)).get 0 0 = -(ArmaVec.get ⟨[1]⟩ 0) :=
  moebius_rho_neg_one_total ⟨1, 1, [1]⟩ ⟨[1]⟩ 0 0 rfl (by decide) (by decide)
